import Mathlib

/-!
Verification development for the qpanel reconciliation engine
(`app/scheduler.py`, with the data model from `app/app.py`).

Embedding conventions:
* Python strings are Lean `String`s; `str.split(',')`, `str.strip()` and the
  `in` substring test are embedded as structurally recursive functions over
  `List Char` (`splitOnCharList`, `stripChars`, `containsSub`).
* Filesystem paths handed to `os.path.realpath`/`normpath`/`commonpath` are
  modelled as absolute, symlink-free paths, so canonicalization is component
  normalization: a path canonicalizes to its `List String` of components
  (`canonPath`), `os.path.commonpath([p, root]) == root` is component-prefix
  containment, and `os.path.relpath` under that guard is `List.drop`.
* Machine state effects (remote client calls, `db.session.add`) are made
  explicit: each scheduler routine returns the list of remote calls and the
  list of database writes it performs, in order.
* The filesystem seen through `os.stat`/`os.path.exists`/`os.walk` is passed
  in explicitly: a stat function `String → Option FileStat` (`none` models
  FileNotFoundError/PermissionError or a non-existing path) and, for the
  orphan scanner, the list of files produced by the walk.
* `client.torrents_files` may raise; a torrent's `filesResult = none` models
  that exception.
* Timestamps (`datetime.now().timestamp()`, `st_mtime`, `completion_on`) are
  integers counted in seconds; `datetime.now() - completion_time >
  timedelta(hours=1)` becomes `now - completion_on > 3600`.
-/

namespace QPanel

/-- A canonical filesystem path: its list of components below the root. -/
abbrev Path := List String

/-! ## String helpers (embedding of Python `str` operations) -/

/-- Split a character list on a separator character; mirrors Python
`str.split(sep)` for a one-character separator. Always returns at least one
group. -/
def splitOnCharList (c : Char) : List Char → List (List Char)
  | [] => [[]]
  | x :: xs =>
    match splitOnCharList c xs with
    | [] => [[]]
    | g :: gs => if x = c then [] :: g :: gs else (x :: g) :: gs

/-- Whitespace recognised by Python `str.strip()` (the characters relevant
here). -/
def isSpaceChar (c : Char) : Bool := c = ' ' || c = '\t' || c = '\n' || c = '\r'

/-- Python `str.strip()` on a character list. -/
def stripChars (l : List Char) : List Char :=
  ((l.dropWhile isSpaceChar).reverse.dropWhile isSpaceChar).reverse

/-- Embedding of the recurring idiom
`[v.strip() for v in s.split(',') if v.strip()]`. -/
def splitCommaStrip (s : String) : List String :=
  ((splitOnCharList ',' s.toList).map (fun l => String.mk (stripChars l))).filter
    (fun v => v ≠ "")

/-- Predicate `containsSub pat hay = true` iff `pat` occurs as a contiguous sublist of
`hay`; mirrors Python `pat in hay` on strings. -/
def containsSub (pat : List Char) : List Char → Bool
  | [] => pat.isEmpty
  | x :: xs => pat.isPrefixOf (x :: xs) || containsSub pat xs

/-- Python `pat in hay` for strings. -/
def strContains (hay pat : String) : Bool := containsSub pat.toList hay.toList

/-- Python `str.lower()` (sufficient for the ASCII status phrases used). -/
def lowerStr (s : String) : String := String.mk (s.toList.map Char.toLower)

/-- Embedding of `os.path.join(a, b)` for a relative `b`:
if `b` is absolute it wins; otherwise the parts are glued with `/` unless `a`
is empty or already ends in `/`. -/
def osJoin (a b : String) : String :=
  if b.toList.head? = some '/' then b
  else if a = "" || a.toList.getLast? = some '/' then a ++ b
  else a ++ "/" ++ b

/-- Append relative components to a path string, inserting `/` before each:
`appendRel "/data" ["x", "y"] = "/data/x/y"`.  This is the string shape
`remoteRoot + "/x/y"` used by the round-trip property. -/
def appendRel (s : String) (rel : List String) : String :=
  rel.foldl (fun acc c => acc ++ "/" ++ c) s

/-! ## Canonical paths (embedding of `os.path.realpath(os.path.normpath _)`
on absolute, symlink-free paths) -/

/-- One step of path normalization: empty and `.` components vanish, `..`
pops the previous component (at the root it stays at the root), anything else
is appended. -/
def normStep (acc : List String) (c : String) : List String :=
  if c = "" || c = "." then acc
  else if c = ".." then acc.dropLast
  else acc ++ [c]

/-- Normalize a list of raw components. -/
def normList (l : List String) : List String := l.foldl normStep []

/-- Canonicalize an absolute path string to its component list: split on `/`
and normalize.  Embeds `os.path.realpath(os.path.normpath s)` under the
symlink-free convention. -/
def canonPath (s : String) : Path :=
  normList ((splitOnCharList '/' s.toList).map (fun l => String.mk l))

/-- A component is plain when normalization keeps it verbatim: nonempty, not
`.`, not `..`, and free of separators. -/
def plainComp (c : String) : Bool :=
  c ≠ "" && c ≠ "." && c ≠ ".." && !c.toList.contains '/'

/-! ## Data model (from `app/app.py` and the torrent snapshots read from the
client) -/

/-- Result of `os.stat`. -/
structure FileStat where
  st_dev : Nat
  st_ino : Nat
  st_mtime : Int
  st_nlink : Nat
  deriving DecidableEq, Repr

/-- A tracker entry of a torrent snapshot (`tracker.url`, `tracker.msg`). -/
structure Tracker where
  url : String
  msg : String
  deriving DecidableEq, Repr

/-- One entry of `client.torrents_files(...)`. -/
structure TorrentFile where
  name : String
  deriving DecidableEq, Repr

/-- A torrent snapshot as read from the client each cycle.  `filesResult`
is the outcome of `client.torrents_files(torrent_hash=...)`: `none` models
the call raising an exception. -/
structure Torrent where
  hash : String
  name : String
  tags : String
  state : String
  trackers : List Tracker
  save_path : String
  filesResult : Option (List TorrentFile)
  ratio_limit : Rat
  seeding_time_limit : Int
  up_limit : Int
  dl_limit : Int
  completion_on : Int
  deriving DecidableEq, Repr

/-- Model `Rule` (app.py): declarative condition → optional limits. -/
structure Rule where
  name : String
  condition_type : String
  condition_value : String
  share_limit_ratio : Option Rat
  share_limit_time : Option Int
  max_upload_speed : Option Int
  max_download_speed : Option Int
  deriving DecidableEq, Repr

/-- Model `Instance` (app.py), restricted to the fields the scheduler reads.
`none` for a path root models an unset (NULL or empty, hence falsy)
column. -/
structure Instance where
  id : Nat
  name : String
  qbt_download_dir : Option String
  mapped_download_dir : Option String
  rules : List Rule
  deriving Repr

/-- A remote qBittorrent client call issued by the scheduler. -/
inductive RemoteCall where
  | setShareLimits (hash : String) (ratio_limit : Rat)
      (seeding_time_limit inactive_seeding_time_limit : Int)
  | setUploadLimit (hash : String) (limit : Int)
  | setDownloadLimit (hash : String) (limit : Int)
  | addTags (hash tag : String)
  | removeTags (hash tag : String)
  deriving DecidableEq, Repr

/-- A database write (`db.session.add`).  `orphanedFile` is the shape of an
`OrphanedFile` record (app.py:100); it is part of the model so that theorems
can speak about whether such records are ever created. -/
inductive DbWrite where
  | actionLog (instance_id : Nat) (action details : String)
  | orphanedFile (instance_id : Nat) (file_path : String)
      (file_size : Option Int) (file_mtime : Option Int)
  | telegram (message : String)
  deriving DecidableEq, Repr

/-- Recognise an `OrphanedFile` record write. -/
def DbWrite.isOrphanedFileRecord : DbWrite → Bool
  | .orphanedFile _ _ _ _ => true
  | _ => false

/-! ## RuleMatcher / RuleApplier (`apply_rules_for_instance`,
scheduler.py:17-96) -/

/-- Condition matching (scheduler.py:26-46): the condition value is split on
commas; a `tag` rule matches when any accepted value equals any trimmed
torrent tag, a `tracker` rule when any accepted value is a substring of any
tracker URL. -/
def ruleMatches (rule : Rule) (t : Torrent) : Bool :=
  let rule_values := splitCommaStrip rule.condition_value
  if rule.condition_type = "tag" then
    let current_tags := splitCommaStrip t.tags
    rule_values.any (fun v => current_tags.contains v)
  else if rule.condition_type = "tracker" then
    t.trackers.any (fun tracker => rule_values.any (fun v => strContains tracker.url v))
  else false

/-- Idempotency check (scheduler.py:49-58): the rule counts as already
applied when every non-null limit field equals the torrent's current
limit. -/
def isAlreadyApplied (rule : Rule) (t : Torrent) : Bool :=
  (rule.share_limit_ratio.all fun v => decide (t.ratio_limit = v)) &&
  (rule.share_limit_time.all fun v => decide (t.seeding_time_limit = v)) &&
  (rule.max_upload_speed.all fun v => decide (t.up_limit = v)) &&
  (rule.max_download_speed.all fun v => decide (t.dl_limit = v))

/-- Remote calls issued when applying a rule (scheduler.py:65-78): one
combined share-limit call when ratio or seeding time is set (with `-2`, the
"use global" sentinel, for unset fields), then up to two speed-limit
calls. -/
def applyCalls (rule : Rule) (t : Torrent) : List RemoteCall :=
  (if rule.share_limit_ratio.isSome || rule.share_limit_time.isSome then
     [RemoteCall.setShareLimits t.hash (rule.share_limit_ratio.getD (-2))
        (rule.share_limit_time.getD (-2)) (-2)]
   else []) ++
  (match rule.max_upload_speed with
   | some v => [RemoteCall.setUploadLimit t.hash v]
   | none => []) ++
  (match rule.max_download_speed with
   | some v => [RemoteCall.setDownloadLimit t.hash v]
   | none => [])

/-- The `details` string of the rule-application log entry
(scheduler.py:81-91); `//` is Python floor division, i.e. `Int.fdiv`. -/
def ruleDetails (rule : Rule) : String :=
  String.intercalate ", " (
    (match rule.share_limit_ratio with
     | some v => ["Share Ratio: " ++ toString v] | none => []) ++
    (match rule.share_limit_time with
     | some v => ["Seeding Time: " ++ toString v ++ "m"] | none => []) ++
    (match rule.max_upload_speed with
     | some v => ["Up: " ++ toString (Int.fdiv v 1024) ++ "KiB/s"] | none => []) ++
    (match rule.max_download_speed with
     | some v => ["Down: " ++ toString (Int.fdiv v 1024) ++ "KiB/s"] | none => []))

/-- Effect of the matched branch (scheduler.py:48-93): skip silently when
already applied, otherwise issue the calls and write one ActionLog entry. -/
def applyMatchedRule (inst : Instance) (t : Torrent) (rule : Rule) :
    List RemoteCall × List DbWrite :=
  if isAlreadyApplied rule t then ([], [])
  else
    (applyCalls rule t,
     [DbWrite.actionLog inst.id
        ("Applied rule '" ++ rule.name ++ "' to '" ++ t.name ++ "'")
        (ruleDetails rule)])

/-- The inner rule loop for one torrent (scheduler.py:25-96): rules are
scanned in stored order and the loop `break`s after the first match. -/
def processRulesForTorrent (inst : Instance) (t : Torrent) :
    List Rule → List RemoteCall × List DbWrite
  | [] => ([], [])
  | rule :: rules =>
    if ruleMatches rule t then applyMatchedRule inst t rule
    else processRulesForTorrent inst t rules

/-- Embedding of `apply_rules_for_instance` over all torrents, concatenating effects in
order. -/
def applyRulesForInstance (inst : Instance) (torrents : List Torrent) :
    List RemoteCall × List DbWrite :=
  torrents.foldl
    (fun acc t =>
      let r := processRulesForTorrent inst t inst.rules
      (acc.1 ++ r.1, acc.2 ++ r.2))
    ([], [])

/-- Client-state semantics of a remote call on one torrent snapshot: limit
calls addressed to the torrent's hash update the corresponding current
limits; tag calls do not affect any limit field (their tag-string effect is
not needed by these theorems). -/
def applyCallToTorrent (t : Torrent) : RemoteCall → Torrent
  | .setShareLimits h ratio stime _ =>
    if h = t.hash then { t with ratio_limit := ratio, seeding_time_limit := stime } else t
  | .setUploadLimit h v => if h = t.hash then { t with up_limit := v } else t
  | .setDownloadLimit h v => if h = t.hash then { t with dl_limit := v } else t
  | .addTags _ _ => t
  | .removeTags _ _ => t

/-! ## PathTranslator (`_map_qbt_path_to_local`, scheduler.py:281-298) -/

/-- Embedding of `_map_qbt_path_to_local`: `none` if either root is unset; otherwise
canonicalize both roots and the path, require the canonical path to fall
under the canonical remote root (component-prefix containment, the embedding
of `os.path.commonpath([p, root]) == root`), and return the canonicalized
join of the local root with the relative remainder. -/
def mapQbtPathToLocal (inst : Instance) (qbt_path : String) : Option Path :=
  match inst.qbt_download_dir, inst.mapped_download_dir with
  | some qroot, some mroot =>
    let normalized_qbt_root := canonPath qroot
    let normalized_local_root := canonPath mroot
    let normalized_qbt_path := canonPath qbt_path
    if normalized_qbt_root.isPrefixOf normalized_qbt_path then
      some (normList (normalized_local_root ++
        normalized_qbt_path.drop normalized_qbt_root.length))
    else none
  | _, _ => none

/-! ## ExpectedPathSetBuilder (`_collect_expected_local_paths`,
scheduler.py:300-346).  The Python `set` is modelled as the list of paths
added, in order; all claims about it are membership claims. -/

/-- Per-file step of `_collect_expected_local_paths` (scheduler.py:318-340):
on successful translation add the canonical local path; otherwise, with a
group root, add the canonical remote path only when it falls under that
root; with no group root, add the canonical remote path directly. -/
def collectFileStep (inst : Instance) (groupRootReal : Option Path)
    (save_path : String) (expected : List Path) (f : TorrentFile) : List Path :=
  let qbt_full_path := osJoin save_path f.name
  match mapQbtPathToLocal inst qbt_full_path with
  | some local_path => expected ++ [normList local_path]
  | none =>
    match groupRootReal with
    | some group_root =>
      let qbt_real := canonPath qbt_full_path
      if group_root.isPrefixOf qbt_real then expected ++ [qbt_real] else expected
    | none => expected ++ [canonPath qbt_full_path]

/-- Per-torrent step (scheduler.py:312-343): a failing `torrents_files` call
is swallowed and the torrent contributes nothing. -/
def collectTorrentStep (inst : Instance) (groupRootReal : Option Path)
    (expected : List Path) (t : Torrent) : List Path :=
  match t.filesResult with
  | none => expected
  | some files => files.foldl (collectFileStep inst groupRootReal t.save_path) expected

/-- Embedding of `_collect_expected_local_paths`. -/
def collectExpectedLocalPaths (inst : Instance) (torrents : List Torrent)
    (group_mapped_root : Option String) : List Path :=
  torrents.foldl (collectTorrentStep inst (group_mapped_root.map canonPath)) []

/-! ## OrphanScanner (`_find_orphaned_files`, scheduler.py:359-397) -/

/-- A regular file produced by the directory walk: its canonical full path
and the outcome of `os.stat` on it (`none`: vanished or unreadable during
the scan). -/
structure WalkEntry where
  path : Path
  stat : Option FileStat
  deriving DecidableEq, Repr

/-- The chain of `continue` guards of the scan loop (scheduler.py:376-396):
a walked file is included exactly when it survives the ignore patterns, is
not an expected path, stats successfully, its `(st_dev, st_ino)` is not an
expected inode, and its age reaches the threshold. -/
def entryIncluded (expected_paths : List Path) (expected_inodes : List (Nat × Nat))
    (min_age_seconds now : Int) (compiled : List (Path → Bool))
    (e : WalkEntry) : Bool :=
  if compiled.any (fun rx => rx e.path) then false
  else if expected_paths.contains e.path then false
  else match e.stat with
    | none => false
    | some st =>
      if expected_inodes.contains (st.st_dev, st.st_ino) then false
      else decide (now - st.st_mtime ≥ min_age_seconds)

/-- Embedding of `_find_orphaned_files`: `rootOk` embeds the
`mapped_root and os.path.isdir(mapped_root)` guard; the appended-orphans
loop is the filtered walk, in walk order. -/
def findOrphanedFiles (rootOk : Bool) (walk : List WalkEntry)
    (expected_paths : List Path) (expected_inodes : List (Nat × Nat))
    (min_age_days now : Int) (compiled : List (Path → Bool)) : List Path :=
  if !rootOk then []
  else
    (walk.filter
      (entryIncluded expected_paths expected_inodes
        (max 0 min_age_days * 24 * 3600) now compiled)).map WalkEntry.path

/-- Render a canonical path back to its absolute string form. -/
def pathToString (p : Path) : String :=
  p.foldl (fun acc c => acc ++ "/" ++ c) ""

/-- The notification text of `detect_orphaned_files_job`
(scheduler.py:465-473). -/
def orphanMessage (mapped_root : String) (owner : Instance)
    (min_age_days : Int) (orphaned : List Path) : String :=
  let listed := String.intercalate "\n" ((orphaned.take 10).map pathToString)
  let more_count : Int := max 0 ((orphaned.length : Int) - 10)
  let more_text := if more_count ≠ 0 then "\n...and " ++ toString more_count ++ " more" else ""
  "Orphaned files detected in '" ++ mapped_root ++ "' (>= " ++ toString min_age_days ++
    "d).\nOwner instance: " ++ owner.name ++ "\n" ++ listed ++ more_text

/-- Per-group body of `detect_orphaned_files_job` (scheduler.py:443-477):
run the scan; when orphans were found, write one ActionLog entry per orphan
(action "Orphaned file detected", details the path, attributed to the
group's first instance) and, when the notification was delivered, one
TelegramMessage.  No other database write occurs. -/
def detectOrphansForGroup (owner : Instance) (mapped_root : String)
    (rootOk : Bool) (walk : List WalkEntry)
    (expected_paths : List Path) (expected_inodes : List (Nat × Nat))
    (min_age_days now : Int) (compiled : List (Path → Bool))
    (notifyDelivered : Bool) : List DbWrite :=
  let orphaned := findOrphanedFiles rootOk walk expected_paths expected_inodes
    min_age_days now compiled
  if orphaned.isEmpty then []
  else
    (orphaned.map (fun o =>
      DbWrite.actionLog owner.id "Orphaned file detected" (pathToString o))) ++
    (if notifyDelivered then
      [DbWrite.telegram (orphanMessage mapped_root owner min_age_days orphaned)]
     else [])

/-! ## TagSynchronizer: unregistered tag
(`tag_unregistered_torrents_for_instance`, scheduler.py:179-234) -/

/-- The fixed phrase set (scheduler.py:181-188). -/
def UNREGISTERED_STATUS_SUBSTRINGS : List String :=
  ["unregistered",
   "Torrent has been deleted",
   "Torrent not registered with this tracker",
   "Torrent is not authorized for use on this tracker",
   "This torrent does not exist",
   "Torrent not found"]

/-- The tracker scan (scheduler.py:190-200): the first tracker whose message
contains (case-insensitively) one of the phrases makes the torrent
unregistered, with that message as the offending one. -/
def findUnregisteredMsg : List Tracker → Option String
  | [] => none
  | tracker :: rest =>
    if UNREGISTERED_STATUS_SUBSTRINGS.any
        (fun s => strContains (lowerStr tracker.msg) (lowerStr s)) then
      some tracker.msg
    else findUnregisteredMsg rest

/-- Per-torrent body of `tag_unregistered_torrents_for_instance`
(scheduler.py:190-234).  Note: the function performs no path-root check. -/
def unregisteredStepTorrent (inst : Instance) (notifyDelivered : Bool)
    (t : Torrent) : List RemoteCall × List DbWrite :=
  let current_tags := splitCommaStrip t.tags
  let has_unregistered_tag := current_tags.contains "unregistered"
  match findUnregisteredMsg t.trackers with
  | some offending_msg =>
    if !has_unregistered_tag then
      ([RemoteCall.addTags t.hash "unregistered"],
       [DbWrite.actionLog inst.id ("Tagged '" ++ t.name ++ "' as unregistered")
          ("Tracker status: " ++ offending_msg)] ++
       (if notifyDelivered then
         [DbWrite.telegram ("Tagged '" ++ t.name ++ "' as unregistered on '" ++
            inst.name ++ "'.\nTracker status: " ++ offending_msg)]
        else []))
    else ([], [])
  | none =>
    if has_unregistered_tag then
      ([RemoteCall.removeTags t.hash "unregistered",
        RemoteCall.setShareLimits t.hash (-1) (-1) (-1)],
       [DbWrite.actionLog inst.id
          ("Removed 'unregistered' tag from '" ++ t.name ++ "'")
          "Tracker status is now normal. Share limits reset to global settings."])
    else ([], [])

/-- Embedding of `tag_unregistered_torrents_for_instance` over all torrents. -/
def tagUnregisteredTorrentsForInstance (inst : Instance) (notifyDelivered : Bool)
    (torrents : List Torrent) : List RemoteCall × List DbWrite :=
  torrents.foldl
    (fun acc t =>
      let r := unregisteredStepTorrent inst notifyDelivered t
      (acc.1 ++ r.1, acc.2 ++ r.2))
    ([], [])

/-! ## TagSynchronizer: hard-link tag (`tag_torrents_with_no_hard_links`,
scheduler.py:98-177) -/

/-- Helper for `os.path.relpath p start` on absolute, symlink-free paths: strip the
longest common component run, climb with `..`, descend with the rest;
equal paths give `"."`. -/
def commonLen : List String → List String → Nat
  | a :: as', b :: bs => if a = b then commonLen as' bs + 1 else 0
  | _, _ => 0

/-- Join relative components with `/` (`"."` for the empty relative path). -/
def joinRelStr (l : List String) : String :=
  match l with
  | [] => "."
  | c :: cs => cs.foldl (fun acc d => acc ++ "/" ++ d) c

/-- Embedding of `os.path.relpath` under the absolute, symlink-free convention. -/
def relpathStr (p start : String) : String :=
  let pc := canonPath p
  let sc := canonPath start
  let i := commonLen pc sc
  joinRelStr (List.replicate (sc.length - i) ".." ++ pc.drop i)

/-- Per-file hard-link test (scheduler.py:115-128): build the path as
qBittorrent sees it, require the raw string-level `startswith` against the
instance's remote root, map to the local side and ask the filesystem whether
the file exists with more than one link (a stat failure counts as no). -/
def fileHardLinkCheck (fs : String → Option FileStat) (qroot mroot save_path : String)
    (f : TorrentFile) : Bool :=
  let qbt_full_path := osJoin save_path f.name
  if qroot.isPrefixOf qbt_full_path then
    let mapped_path := osJoin mroot (relpathStr qbt_full_path qroot)
    match fs mapped_path with
    | some st => decide (st.st_nlink > 1)
    | none => false
  else false

/-- Per-torrent body of the hard-link machine (scheduler.py:107-174), given
that both roots are configured. -/
def noHLStepTorrent (inst : Instance) (fs : String → Option FileStat)
    (qroot mroot : String) (now : Int) (notifyDelivered : Bool)
    (t : Torrent) (files : List TorrentFile) : List RemoteCall × List DbWrite :=
  let has_hard_link := files.any (fileHardLinkCheck fs qroot mroot t.save_path)
  let has_noHL_tag := (splitCommaStrip t.tags).contains "noHL"
  if has_hard_link then
    if has_noHL_tag then
      ([RemoteCall.removeTags t.hash "noHL",
        RemoteCall.setShareLimits t.hash (-1) (-1) (-1)],
       [DbWrite.actionLog inst.id ("Removed 'noHL' tag from '" ++ t.name ++ "'")
          "Torrent now has hard links. Share limits reset to global settings."])
    else ([], [])
  else
    if !has_noHL_tag then
      if t.completion_on > 0 then
        if now - t.completion_on > 3600 then
          ([RemoteCall.addTags t.hash "noHL"],
           [DbWrite.actionLog inst.id "Tagged with noHL"
              ("Torrent '" ++ t.name ++
               "' has no hard links and was completed over an hour ago.")] ++
           (if notifyDelivered then
             [DbWrite.telegram ("Torrent '" ++ t.name ++ "' on '" ++ inst.name ++
                "' was tagged with 'noHL' because it has no hard links and was completed over an hour ago.")]
            else []))
        else ([], [])
      else ([], [])
    else ([], [])

/-- The torrent loop of the hard-link machine.  A raising `torrents_files`
call jumps to the surrounding `except` (scheduler.py:104, 176-177), so the
loop stops there, keeping the effects already produced. -/
def noHLLoop (inst : Instance) (fs : String → Option FileStat)
    (qroot mroot : String) (now : Int) (notifyDelivered : Bool) :
    List Torrent → List RemoteCall × List DbWrite
  | [] => ([], [])
  | t :: ts =>
    match t.filesResult with
    | none => ([], [])
    | some files =>
      let r := noHLStepTorrent inst fs qroot mroot now notifyDelivered t files
      let rest := noHLLoop inst fs qroot mroot now notifyDelivered ts
      (r.1 ++ rest.1, r.2 ++ rest.2)

/-- Embedding of `tag_torrents_with_no_hard_links` (scheduler.py:98-177): a missing path
mapping disables the whole check (scheduler.py:100-102). -/
def tagTorrentsWithNoHardLinks (inst : Instance) (fs : String → Option FileStat)
    (now : Int) (notifyDelivered : Bool) (torrents : List Torrent) :
    List RemoteCall × List DbWrite :=
  match inst.qbt_download_dir, inst.mapped_download_dir with
  | some qroot, some mroot => noHLLoop inst fs qroot mroot now notifyDelivered torrents
  | _, _ => ([], [])

/-! ## Theorems -/

/-- Claim C1: rule application evaluates a torrent's assigned rules in their
stored order and, at the first rule whose condition matches, applies (or
skips as already applied) exactly that rule and stops: the outcome over
`rs1 ++ r :: rs2`, where nothing in `rs1` matches and `r` does, is the
outcome of handling `r` alone, whatever the later rules `rs2` are. -/
theorem first_match_wins (inst : Instance) (t : Torrent)
    (rs1 : List Rule) (r : Rule) (rs2 : List Rule)
    (h1 : ∀ r' ∈ rs1, ruleMatches r' t = false)
    (h2 : ruleMatches r t = true) :
    processRulesForTorrent inst t (rs1 ++ r :: rs2) = applyMatchedRule inst t r := by
  induction rs1 with
  | nil => simp [processRulesForTorrent, h2]
  | cons a as ih =>
    have ha : ruleMatches a t = false := h1 a (List.mem_cons_self a as)
    have hrec := ih (fun r' hr' => h1 r' (List.mem_cons_of_mem a hr'))
    simpa [processRulesForTorrent, ha] using hrec

theorem first_match_wins_witness :
    processRulesForTorrent ⟨1, "i", none, none, []⟩
      ⟨"h1", "t1", "x, y", "", [], "", none, 0, 0, 0, 0, 0⟩
      ([⟨"r0", "tag", "z", none, none, none, none⟩] ++
        ⟨"r1", "tag", "x", some 1, none, none, none⟩ ::
        [⟨"r2", "tag", "x", none, none, some 5120, none⟩]) =
      applyMatchedRule ⟨1, "i", none, none, []⟩
        ⟨"h1", "t1", "x, y", "", [], "", none, 0, 0, 0, 0, 0⟩
        ⟨"r1", "tag", "x", some 1, none, none, none⟩ :=
  first_match_wins _ _ _ _ _ (by decide) (by decide)

/-- After the calls of `applyCalls rule t` have taken effect on the torrent,
the rule's idempotency check passes: each non-null field was written with
exactly the compared value. -/
theorem isAlreadyApplied_after_applyCalls (r : Rule) (t : Torrent) :
    isAlreadyApplied r ((applyCalls r t).foldl applyCallToTorrent t) = true := by
  rcases r with ⟨n, ct, cv, ratio, stime, up, down⟩
  rcases ratio with _ | ratio <;> rcases stime with _ | stime <;>
    rcases up with _ | up <;> rcases down with _ | down <;>
      simp [applyCalls, applyCallToTorrent, isAlreadyApplied, Option.all]

/-- Claim C2: rule application is idempotent.  If every non-null limit field
of the matched rule already equals the torrent's current limit, application
issues no remote call and writes no log entry; otherwise the application
writes exactly one ActionLog entry and a second application, run on the
torrent state produced by the first application's remote calls, issues no
call and writes nothing — so two successive applications produce exactly
one ActionLog entry and the one set of remote calls of the first. -/
theorem rule_application_idempotent (inst : Instance) (t : Torrent) (r : Rule)
    (hm : ruleMatches r t = true) :
    (isAlreadyApplied r t = true → processRulesForTorrent inst t [r] = ([], [])) ∧
    (isAlreadyApplied r t = false →
      (processRulesForTorrent inst t [r]).2.length = 1 ∧
      processRulesForTorrent inst
        ((processRulesForTorrent inst t [r]).1.foldl applyCallToTorrent t) [r] =
        ([], [])) := by
  constructor
  · intro ha
    simp [processRulesForTorrent, hm, applyMatchedRule, ha]
  · intro hn
    have hfirst : processRulesForTorrent inst t [r] =
        (applyCalls r t,
         [DbWrite.actionLog inst.id
            ("Applied rule '" ++ r.name ++ "' to '" ++ t.name ++ "'")
            (ruleDetails r)]) := by
      simp [processRulesForTorrent, hm, applyMatchedRule, hn]
    refine ⟨by rw [hfirst]; rfl, ?_⟩
    rw [hfirst]
    have hdone := isAlreadyApplied_after_applyCalls r t
    cases hmt : ruleMatches r ((applyCalls r t).foldl applyCallToTorrent t) <;>
      simp [processRulesForTorrent, hmt, applyMatchedRule, hdone]

theorem rule_application_idempotent_witness :
    (processRulesForTorrent ⟨1, "i", none, none, []⟩
      ⟨"h1", "t1", "x", "", [], "", none, 0, 0, 0, 0, 0⟩
      [⟨"r1", "tag", "x", some 1, some 10, none, none⟩]).2.length = 1 ∧
    processRulesForTorrent ⟨1, "i", none, none, []⟩
      ((processRulesForTorrent ⟨1, "i", none, none, []⟩
          ⟨"h1", "t1", "x", "", [], "", none, 0, 0, 0, 0, 0⟩
          [⟨"r1", "tag", "x", some 1, some 10, none, none⟩]).1.foldl applyCallToTorrent
        ⟨"h1", "t1", "x", "", [], "", none, 0, 0, 0, 0, 0⟩)
      [⟨"r1", "tag", "x", some 1, some 10, none, none⟩] = ([], []) :=
  (rule_application_idempotent _ _ _ (by decide)).2 (by decide)

/-- Claim C6 (amended): a matched rule that is not already applied issues at
most three remote calls — at most one combined share-limit call, which uses
the unlimited/inherit sentinel `-2` for every share field the rule does not
set, plus up to two separate speed-limit calls — and writes exactly one
ActionLog entry. -/
theorem rule_application_call_bound (inst : Instance) (t : Torrent) (r : Rule)
    (hm : ruleMatches r t = true) (hn : isAlreadyApplied r t = false) :
    (processRulesForTorrent inst t [r]).1.length ≤ 3 ∧
    (processRulesForTorrent inst t [r]).2.length = 1 ∧
    ∀ h ρ s i, RemoteCall.setShareLimits h ρ s i ∈ (processRulesForTorrent inst t [r]).1 →
      h = t.hash ∧ ρ = r.share_limit_ratio.getD (-2) ∧
      s = r.share_limit_time.getD (-2) ∧ i = -2 := by
  have hfirst : (processRulesForTorrent inst t [r]).1 = applyCalls r t := by
    simp [processRulesForTorrent, hm, applyMatchedRule, hn]
  have hsnd : (processRulesForTorrent inst t [r]).2.length = 1 := by
    simp [processRulesForTorrent, hm, applyMatchedRule, hn]
  refine ⟨?_, hsnd, ?_⟩
  · rw [hfirst]
    rcases r with ⟨n, ct, cv, ratio, stime, up, down⟩
    rcases ratio with _ | ratio <;> rcases stime with _ | stime <;>
      rcases up with _ | up <;> rcases down with _ | down <;>
        simp [applyCalls]
  · intro h ρ s i hmem
    rw [hfirst] at hmem
    rcases r with ⟨n, ct, cv, ratio, stime, up, down⟩
    rcases ratio with _ | ratio <;> rcases stime with _ | stime <;>
      rcases up with _ | up <;> rcases down with _ | down <;>
        simp_all [applyCalls]

theorem rule_application_call_bound_witness :
    (processRulesForTorrent ⟨1, "i", none, none, []⟩
      ⟨"h1", "t1", "x", "", [], "", none, 0, 0, 0, 0, 0⟩
      [⟨"r1", "tag", "x", some 1, some 10, some 2048, some 4096⟩]).1.length ≤ 3 :=
  (rule_application_call_bound ⟨1, "i", none, none, []⟩
    ⟨"h1", "t1", "x", "", [], "", none, 0, 0, 0, 0, 0⟩
    ⟨"r1", "tag", "x", some 1, some 10, some 2048, some 4096⟩
    (by decide) (by decide)).1

/-- Claim C6 fails as stated: a rule constraining all four limit fields
issues three remote calls, not at most two. -/
theorem rule_application_two_call_counterexample :
    ¬ ((processRulesForTorrent ⟨1, "i", none, none, []⟩
        ⟨"h1", "t1", "x", "", [], "", none, 0, 0, 0, 0, 0⟩
        [⟨"r1", "tag", "x", some 1, some 10, some 2048, some 4096⟩]).1.length ≤ 2) := by
  decide

/-- Claim C10: the hard-link machine never adds the `noHL` tag to a torrent
whose completion timestamp is zero or negative: with no hard-linked file and
no current `noHL` tag, the per-torrent step still produces no call and no
write, however late `now` is. -/
theorem noHL_never_tags_uncompleted (inst : Instance) (fs : String → Option FileStat)
    (qroot mroot : String) (now : Int) (b : Bool) (t : Torrent)
    (files : List TorrentFile)
    (hlink : files.any (fileHardLinkCheck fs qroot mroot t.save_path) = false)
    (_htag : (splitCommaStrip t.tags).contains "noHL" = false)
    (hc : t.completion_on ≤ 0) :
    noHLStepTorrent inst fs qroot mroot now b t files = ([], []) := by
  have hlt : ¬ (t.completion_on > 0) := by omega
  simp [noHLStepTorrent, hlink, hlt]

/-- The per-torrent unregistered step reads only the instance's id and name,
never its path roots or rules. -/
theorem unregisteredStepTorrent_roots_irrelevant (id : Nat) (nm : String)
    (q m q' m' : Option String) (rules rules' : List Rule) (b : Bool) (t : Torrent) :
    unregisteredStepTorrent ⟨id, nm, q, m, rules⟩ b t =
    unregisteredStepTorrent ⟨id, nm, q', m', rules'⟩ b t := rfl

/-- Claim C7 (amended): the hard-link state machine requires both path roots
and is a complete no-op when either is unset; the unregistered-tag state
machine performs no path-root check, and behaves identically under every
setting of the two roots. -/
theorem tag_machine_root_requirement (inst : Instance) (fs : String → Option FileStat)
    (now : Int) (b : Bool) (torrents : List Torrent) (q' m' : Option String)
    (h : inst.qbt_download_dir = none ∨ inst.mapped_download_dir = none) :
    tagTorrentsWithNoHardLinks inst fs now b torrents = ([], []) ∧
    tagUnregisteredTorrentsForInstance inst b torrents =
      tagUnregisteredTorrentsForInstance
        { inst with qbt_download_dir := q', mapped_download_dir := m' } b torrents := by
  constructor
  · rcases inst with ⟨i, nm, q, m, rules⟩
    rcases h with h | h
    · simp only at h
      subst h
      cases m <;> rfl
    · simp only at h
      subst h
      cases q <;> rfl
  · rcases inst with ⟨i, nm, q, m, rules⟩
    rfl

theorem tag_machine_root_requirement_witness :
    tagTorrentsWithNoHardLinks ⟨1, "i", none, some "/m", []⟩ (fun _ => none) 0 false
      [⟨"h1", "t1", "", "", [⟨"http://tr/ann", "Torrent not found"⟩], "", some [],
        0, 0, 0, 0, 0⟩] = ([], []) ∧
    tagUnregisteredTorrentsForInstance ⟨1, "i", none, some "/m", []⟩ false
      [⟨"h1", "t1", "", "", [⟨"http://tr/ann", "Torrent not found"⟩], "", some [],
        0, 0, 0, 0, 0⟩] =
      tagUnregisteredTorrentsForInstance ⟨1, "i", some "/q", some "/m", []⟩ false
        [⟨"h1", "t1", "", "", [⟨"http://tr/ann", "Torrent not found"⟩], "", some [],
          0, 0, 0, 0, 0⟩] :=
  tag_machine_root_requirement ⟨1, "i", none, some "/m", []⟩ (fun _ => none) 0 false
    [⟨"h1", "t1", "", "", [⟨"http://tr/ann", "Torrent not found"⟩], "", some [],
      0, 0, 0, 0, 0⟩] (some "/q") (some "/m") (Or.inl rfl)

/-- Claim C7 fails as stated: with both path roots unset, the
unregistered-tag machine still tags a torrent whose tracker reports
"Torrent not found" — it is not a no-op. -/
theorem unregistered_runs_without_roots_counterexample :
    tagUnregisteredTorrentsForInstance ⟨1, "i", none, none, []⟩ false
      [⟨"h1", "t1", "", "", [⟨"http://tr/ann", "Torrent not found"⟩], "", none,
        0, 0, 0, 0, 0⟩] ≠ ([], []) := by
  decide

theorem noHL_never_tags_uncompleted_witness :
    noHLStepTorrent ⟨1, "i", some "/q", some "/m", []⟩ (fun _ => none)
      "/q" "/m" 999999999 false
      ⟨"h1", "t1", "", "", [], "/q", some [], 0, 0, 0, 0, 0⟩ [] = ([], []) :=
  noHL_never_tags_uncompleted _ _ _ _ _ _ _ _ (by decide) (by decide) (by decide)

/-- Membership in the scan output: the root must be valid and some walked
entry with that path must survive every guard. -/
theorem mem_findOrphanedFiles {rootOk : Bool} {walk : List WalkEntry}
    {eps : List Path} {eis : List (Nat × Nat)} {mad now : Int}
    {compiled : List (Path → Bool)} {p : Path} :
    p ∈ findOrphanedFiles rootOk walk eps eis mad now compiled ↔
    rootOk = true ∧ ∃ e, e ∈ walk ∧
      entryIncluded eps eis (max 0 mad * 24 * 3600) now compiled e = true ∧
      e.path = p := by
  cases rootOk <;> simp [findOrphanedFiles, List.mem_filter, and_assoc]

/-- In a walk whose paths are distinct (as a real directory walk's are), an
entry is determined by its path. -/
theorem walkEntry_eq_of_path_eq {walk : List WalkEntry}
    (hnodup : (walk.map WalkEntry.path).Nodup) {e e' : WalkEntry}
    (he : e ∈ walk) (he' : e' ∈ walk) (hp : e.path = e'.path) : e = e' :=
  List.inj_on_of_nodup_map hnodup he he' hp

/-- Claim C4: inode-based exclusion.  A walked file whose `(device, inode)`
pair is in the expected-inode set is never reported as an orphan, whether or
not its path is in the expected-path set. -/
theorem inode_exclusion (rootOk : Bool) (walk : List WalkEntry)
    (eps : List Path) (eis : List (Nat × Nat)) (mad now : Int)
    (compiled : List (Path → Bool)) (e : WalkEntry) (st : FileStat)
    (hnodup : (walk.map WalkEntry.path).Nodup)
    (he : e ∈ walk) (hst : e.stat = some st)
    (hino : eis.contains (st.st_dev, st.st_ino) = true) :
    e.path ∉ findOrphanedFiles rootOk walk eps eis mad now compiled := by
  intro hmem
  rw [mem_findOrphanedFiles] at hmem
  obtain ⟨-, e', he', hinc, hpe⟩ := hmem
  have heq : e' = e := walkEntry_eq_of_path_eq hnodup he' he hpe
  subst heq
  have hino' : (st.st_dev, st.st_ino) ∈ eis := by simpa using hino
  simp [entryIncluded, hst, hino'] at hinc

theorem inode_exclusion_witness :
    (["b"] : Path) ∉
      findOrphanedFiles true [⟨["b"], some ⟨1, 5, 0, 2⟩⟩] [["other"]] [(1, 5)] 0 100 [] :=
  inode_exclusion true [⟨["b"], some ⟨1, 5, 0, 2⟩⟩] [["other"]] [(1, 5)] 0 100 []
    ⟨["b"], some ⟨1, 5, 0, 2⟩⟩ ⟨1, 5, 0, 2⟩ (by decide) (by decide) (by decide) (by decide)

/-- Claim C9: age filter boundary.  A walked file that survives every other
guard is reported exactly when its age `now - mtime` is at least
`max 0 minAgeDays * 86400` seconds: age equal to the threshold is included,
one second less is excluded, and a negative `minAgeDays` behaves as zero. -/
theorem age_filter_boundary (walk : List WalkEntry)
    (eps : List Path) (eis : List (Nat × Nat)) (mad now : Int)
    (compiled : List (Path → Bool)) (e : WalkEntry) (st : FileStat)
    (hnodup : (walk.map WalkEntry.path).Nodup)
    (he : e ∈ walk)
    (hig : compiled.any (fun rx => rx e.path) = false)
    (hp : eps.contains e.path = false)
    (hst : e.stat = some st)
    (hino : eis.contains (st.st_dev, st.st_ino) = false) :
    e.path ∈ findOrphanedFiles true walk eps eis mad now compiled ↔
      now - st.st_mtime ≥ max 0 mad * 24 * 3600 := by
  have hp' : e.path ∉ eps := by simpa using hp
  have hino' : (st.st_dev, st.st_ino) ∉ eis := by simpa using hino
  rw [mem_findOrphanedFiles]
  constructor
  · rintro ⟨-, e', he', hinc, hpe⟩
    have heq : e' = e := walkEntry_eq_of_path_eq hnodup he' he hpe
    subst heq
    have h3 := hinc
    simp [entryIncluded, hig, hst, hp', hino'] at h3
    exact h3
  · intro hage
    exact ⟨rfl, e, he, by simp [entryIncluded, hig, hst, hp', hino', hage], rfl⟩

theorem age_filter_boundary_witness :
    ((["a"] : Path) ∈
      findOrphanedFiles true [⟨["a"], some ⟨1, 2, 0, 1⟩⟩] [] [] 7 604800 []) ∧
    ¬ ((["a"] : Path) ∈
      findOrphanedFiles true [⟨["a"], some ⟨1, 2, 0, 1⟩⟩] [] [] 7 604799 []) :=
  ⟨(age_filter_boundary [⟨["a"], some ⟨1, 2, 0, 1⟩⟩] [] [] 7 604800 []
      ⟨["a"], some ⟨1, 2, 0, 1⟩⟩ ⟨1, 2, 0, 1⟩ (by decide) (by decide) (by decide)
      (by decide) (by decide) (by decide)).mpr (by decide),
   fun hmem => absurd
    ((age_filter_boundary [⟨["a"], some ⟨1, 2, 0, 1⟩⟩] [] [] 7 604799 []
      ⟨["a"], some ⟨1, 2, 0, 1⟩⟩ ⟨1, 2, 0, 1⟩ (by decide) (by decide) (by decide)
      (by decide) (by decide) (by decide)).mp hmem) (by decide)⟩

/-- Claim C8 (amended): for every orphaned file detected by the per-group
body of the orphan-detection job, a persisted ActionLog entry is created —
action "Orphaned file detected", details the discovered path, attributed to
the group's owner instance — and no write of the job is an OrphanedFile
record. -/
theorem orphan_job_writes (owner : Instance) (mapped_root : String)
    (rootOk : Bool) (walk : List WalkEntry) (eps : List Path)
    (eis : List (Nat × Nat)) (mad now : Int) (compiled : List (Path → Bool))
    (notif : Bool) :
    (∀ o ∈ findOrphanedFiles rootOk walk eps eis mad now compiled,
      DbWrite.actionLog owner.id "Orphaned file detected" (pathToString o) ∈
        detectOrphansForGroup owner mapped_root rootOk walk eps eis mad now
          compiled notif) ∧
    (∀ w ∈ detectOrphansForGroup owner mapped_root rootOk walk eps eis mad now
          compiled notif,
      w.isOrphanedFileRecord = false) := by
  constructor
  · intro o ho
    have hne : (findOrphanedFiles rootOk walk eps eis mad now compiled).isEmpty =
        false := by
      cases h : findOrphanedFiles rootOk walk eps eis mad now compiled with
      | nil => rw [h] at ho; cases ho
      | cons a l => rfl
    simp only [detectOrphansForGroup, hne, Bool.false_eq_true, if_false]
    exact List.mem_append_left _ (List.mem_map_of_mem _ ho)
  · intro w hw
    rcases h : (findOrphanedFiles rootOk walk eps eis mad now compiled).isEmpty with
      _ | _
    · simp only [detectOrphansForGroup, h, Bool.false_eq_true, if_false] at hw
      rcases List.mem_append.mp hw with hmap | hnot
      · obtain ⟨o, -, rfl⟩ := List.mem_map.mp hmap
        rfl
      · cases notif with
        | false => simp at hnot
        | true =>
          simp at hnot
          subst hnot
          rfl
    · simp only [detectOrphansForGroup, h, if_true] at hw
      cases hw

theorem orphan_job_writes_witness :
    DbWrite.actionLog 1 "Orphaned file detected" (pathToString ["c"]) ∈
      detectOrphansForGroup ⟨1, "i", none, none, []⟩ "/root" true
        [⟨["c"], some ⟨1, 9, 0, 1⟩⟩] [] [] 0 100 [] false :=
  (orphan_job_writes ⟨1, "i", none, none, []⟩ "/root" true
    [⟨["c"], some ⟨1, 9, 0, 1⟩⟩] [] [] 0 100 [] false).1 ["c"] (by decide)

/-- Claim C8 fails as stated: this concrete run of the orphan-detection job
detects one orphan, yet none of the writes it performs is an OrphanedFile
record (only ActionLog entries are written). -/
theorem orphan_record_counterexample :
    findOrphanedFiles true [⟨["c"], some ⟨1, 9, 0, 1⟩⟩] [] [] 0 100 [] ≠ [] ∧
    (detectOrphansForGroup ⟨1, "i", none, none, []⟩ "/root" true
      [⟨["c"], some ⟨1, 9, 0, 1⟩⟩] [] [] 0 100 [] false).all
        (fun w => !w.isOrphanedFileRecord) = true := by
  decide

/-! ### Canonical-path lemmas -/

theorem string_toList_append (a b : String) : (a ++ b).toList = a.toList ++ b.toList := by
  cases a
  cases b
  rfl

theorem string_mk_toList (s : String) : String.mk s.toList = s := by
  cases s
  rfl

theorem splitOnCharList_cons (c x : Char) (xs : List Char) :
    splitOnCharList c (x :: xs) =
      match splitOnCharList c xs with
      | [] => [[]]
      | g :: gs => if x = c then [] :: g :: gs else (x :: g) :: gs := rfl

theorem splitOnCharList_ne_nil (c : Char) (l : List Char) : splitOnCharList c l ≠ [] := by
  induction l with
  | nil => simp [splitOnCharList]
  | cons x xs ih =>
    rw [splitOnCharList_cons]
    rcases h : splitOnCharList c xs with _ | ⟨g, gs⟩
    · exact absurd h ih
    · by_cases hx : x = c <;> simp [hx]

theorem splitOnCharList_append (c : Char) (xs ys : List Char) :
    splitOnCharList c (xs ++ c :: ys) =
      splitOnCharList c xs ++ splitOnCharList c ys := by
  induction xs with
  | nil =>
    rw [List.nil_append, splitOnCharList_cons]
    rcases h : splitOnCharList c ys with _ | ⟨g, gs⟩
    · exact absurd h (splitOnCharList_ne_nil c ys)
    · simp [splitOnCharList]
  | cons x xs ih =>
    rw [List.cons_append, splitOnCharList_cons, ih, splitOnCharList_cons]
    rcases h : splitOnCharList c xs with _ | ⟨g, gs⟩
    · exact absurd h (splitOnCharList_ne_nil c xs)
    · by_cases hx : x = c <;> simp [hx]

theorem splitOnCharList_no_sep (c : Char) (l : List Char) (h : c ∉ l) :
    splitOnCharList c l = [l] := by
  induction l with
  | nil => rfl
  | cons x xs ih =>
    have hx : ¬ (x = c) := fun he => h (he ▸ List.mem_cons_self x xs)
    have hxs : c ∉ xs := fun hm => h (List.mem_cons_of_mem x hm)
    simp only [splitOnCharList, ih hxs]
    simp [hx]

theorem splitOnCharList_groups (c : Char) (l : List Char) :
    ∀ g ∈ splitOnCharList c l, c ∉ g := by
  induction l with
  | nil =>
    intro g hg
    simp only [splitOnCharList, List.mem_singleton] at hg
    subst hg
    exact List.not_mem_nil c
  | cons x xs ih =>
    intro g hg
    rcases h : splitOnCharList c xs with _ | ⟨g0, gs⟩
    · exact absurd h (splitOnCharList_ne_nil c xs)
    · simp only [splitOnCharList, h] at hg
      have ih0 : c ∉ g0 := ih g0 (by rw [h]; exact List.mem_cons_self g0 gs)
      have ihgs : ∀ g' ∈ gs, c ∉ g' :=
        fun g' hg' => ih g' (by rw [h]; exact List.mem_cons_of_mem g0 hg')
      by_cases hx : x = c
      · rw [if_pos hx] at hg
        rcases List.mem_cons.mp hg with rfl | hg2
        · exact List.not_mem_nil c
        · rcases List.mem_cons.mp hg2 with rfl | hg3
          · exact ih0
          · exact ihgs g hg3
      · rw [if_neg hx] at hg
        rcases List.mem_cons.mp hg with rfl | hg2
        · intro hc
          rcases List.mem_cons.mp hc with rfl | hc2
          · exact hx rfl
          · exact ih0 hc2
        · exact ihgs g hg2

theorem foldl_normStep_plain (l : List String) (acc : List String)
    (h : ∀ x ∈ l, plainComp x = true) :
    List.foldl normStep acc l = acc ++ l := by
  induction l generalizing acc with
  | nil => simp
  | cons x xs ih =>
    have hx := h x (List.mem_cons_self x xs)
    have h1 : ¬ (x = "") ∧ ¬ (x = ".") ∧ ¬ (x = "..") := by
      simp [plainComp] at hx
      exact ⟨hx.1.1.1, hx.1.1.2, hx.1.2⟩
    have hstep : normStep acc x = acc ++ [x] := by
      simp [normStep, h1.1, h1.2.1, h1.2.2]
    simp only [List.foldl_cons, hstep]
    rw [ih _ (fun y hy => h y (List.mem_cons_of_mem x hy))]
    simp

theorem normList_of_plain (l : List String) (h : ∀ x ∈ l, plainComp x = true) :
    normList l = l := by
  have := foldl_normStep_plain l [] h
  simpa [normList] using this

theorem foldl_normStep_all_plain (l : List String) (acc : List String)
    (hacc : ∀ x ∈ acc, plainComp x = true)
    (hl : ∀ x ∈ l, x.toList.contains '/' = false) :
    ∀ x ∈ List.foldl normStep acc l, plainComp x = true := by
  induction l generalizing acc with
  | nil => simpa using hacc
  | cons y ys ih =>
    simp only [List.foldl_cons]
    refine ih _ ?_ (fun x hx => hl x (List.mem_cons_of_mem y hx))
    intro x hx
    by_cases h0 : y = "" ∨ y = "."
    · have hs : normStep acc y = acc := by
        rcases h0 with h0 | h0 <;> simp [normStep, h0]
      rw [hs] at hx
      exact hacc x hx
    · push_neg at h0
      by_cases h2 : y = ".."
      · have hs : normStep acc y = acc.dropLast := by
          simp [normStep, h0.1, h0.2, h2]
        rw [hs] at hx
        exact hacc x (List.dropLast_subset _ hx)
      · have hs : normStep acc y = acc ++ [y] := by
          simp [normStep, h0.1, h0.2, h2]
        rw [hs] at hx
        rcases List.mem_append.mp hx with hx1 | hx2
        · exact hacc x hx1
        · rw [List.mem_singleton.mp hx2]
          have hy := hl y (List.mem_cons_self y ys)
          simp [plainComp, h0.1, h0.2, h2]
          simpa using hy

theorem canonPath_all_plain (s : String) :
    ∀ x ∈ canonPath s, plainComp x = true := by
  simp only [canonPath, normList]
  apply foldl_normStep_all_plain _ _ (by simp)
  intro x hx
  rcases List.mem_map.mp hx with ⟨g, hg, rfl⟩
  have hng := splitOnCharList_groups '/' s.toList g hg
  have : (String.mk g).toList = g := rfl
  rw [this]
  simpa using hng

theorem canonPath_append_one (s c : String) (hc : plainComp c = true) :
    canonPath (s ++ "/" ++ c) = canonPath s ++ [c] := by
  have hc' := hc
  simp [plainComp] at hc'
  obtain ⟨⟨⟨hne, hdot⟩, hdd⟩, hsl⟩ := hc'
  have hslash : '/' ∉ c.toList := hsl
  have htl : (s ++ "/" ++ c).toList = s.toList ++ '/' :: c.toList := by
    rw [string_toList_append, string_toList_append]
    rw [show ("/" : String).toList = ['/'] from rfl]
    simp
  simp only [canonPath, htl, splitOnCharList_append,
    splitOnCharList_no_sep '/' c.toList hslash, List.map_append, List.map_cons,
    List.map_nil, string_mk_toList, normList, List.foldl_append, List.foldl_cons,
    List.foldl_nil]
  simp [normStep, hne, hdot, hdd]

theorem canonPath_appendRel (s : String) (rel : List String)
    (h : ∀ c ∈ rel, plainComp c = true) :
    canonPath (appendRel s rel) = canonPath s ++ rel := by
  induction rel generalizing s with
  | nil => simp [appendRel]
  | cons c cs ih =>
    have hc := h c (List.mem_cons_self c cs)
    have hrest : ∀ x ∈ cs, plainComp x = true :=
      fun x hx => h x (List.mem_cons_of_mem c hx)
    have hstep : appendRel s (c :: cs) = appendRel (s ++ "/" ++ c) cs := rfl
    rw [hstep, ih (s ++ "/" ++ c) hrest, canonPath_append_one s c hc]
    simp

theorem isPrefixOf_self_append (l₁ l₂ : List String) :
    l₁.isPrefixOf (l₁ ++ l₂) = true := by
  induction l₁ with
  | nil => cases l₂ <;> rfl
  | cons a l ih => simp [List.isPrefixOf, ih]

/-- Claim C3: path translation round-trip.  With both roots set,
`remoteRoot + "/x/y"` translates to the canonicalized `localRoot + "/x/y"`;
a remote path whose canonical form does not fall under the canonical remote
root (component-wise prefix containment, so `/data/x2` is not under
`/data/x`) translates to `none`; and with either root unset every
translation is `none`. -/
theorem path_translation (inst : Instance) (q m p : String) (rel : List String) :
    (inst.qbt_download_dir = some q → inst.mapped_download_dir = some m →
      (∀ c ∈ rel, plainComp c = true) →
      mapQbtPathToLocal inst (appendRel q rel) = some (canonPath m ++ rel)) ∧
    (inst.qbt_download_dir = some q → inst.mapped_download_dir = some m →
      (canonPath q).isPrefixOf (canonPath p) = false →
      mapQbtPathToLocal inst p = none) ∧
    ((inst.qbt_download_dir = none ∨ inst.mapped_download_dir = none) →
      mapQbtPathToLocal inst p = none) := by
  refine ⟨?_, ?_, ?_⟩
  · intro hq hm hrel
    simp only [mapQbtPathToLocal, hq, hm, canonPath_appendRel q rel hrel,
      isPrefixOf_self_append, if_true, List.drop_left]
    congr 1
    apply normList_of_plain
    intro x hx
    rcases List.mem_append.mp hx with hx | hx
    · exact canonPath_all_plain m x hx
    · exact hrel x hx
  · intro hq hm hnp
    simp [mapQbtPathToLocal, hq, hm, hnp]
  · intro h
    rcases inst with ⟨i, nm, qd, md, rules⟩
    rcases h with h | h
    · simp only at h
      subst h
      cases md <;> rfl
    · simp only at h
      subst h
      cases qd <;> rfl

theorem path_translation_witness :
    mapQbtPathToLocal ⟨1, "i", some "/data/remote", some "/mnt/local", []⟩
      (appendRel "/data/remote" ["x", "y"]) =
      some (canonPath "/mnt/local" ++ ["x", "y"]) ∧
    mapQbtPathToLocal ⟨1, "i", some "/data/x", some "/mnt/local", []⟩
      "/data/x2/f" = none ∧
    mapQbtPathToLocal ⟨1, "i", none, some "/mnt/local", []⟩ "/data/x/f" = none :=
  ⟨(path_translation ⟨1, "i", some "/data/remote", some "/mnt/local", []⟩
      "/data/remote" "/mnt/local" "" ["x", "y"]).1 rfl rfl (by decide),
   (path_translation ⟨1, "i", some "/data/x", some "/mnt/local", []⟩
      "/data/x" "/mnt/local" "/data/x2/f" []).2.1 rfl rfl (by decide),
   (path_translation ⟨1, "i", none, some "/mnt/local", []⟩
      "q" "m" "/data/x/f" []).2.2 (Or.inl rfl)⟩

/-- Claim C5 (amended): for a torrent file whose path translation fails,
when a fallback root is supplied and the file's canonical remote path does
not fall under it, the builder adds no entry for that file; when no
fallback root is supplied, the builder adds the file's canonical remote
path as-is. -/
theorem expected_path_fallback (inst : Instance) (g save_path : String)
    (expected : List Path) (f : TorrentFile)
    (hfail : mapQbtPathToLocal inst (osJoin save_path f.name) = none) :
    ((canonPath g).isPrefixOf (canonPath (osJoin save_path f.name)) = false →
      collectFileStep inst (some (canonPath g)) save_path expected f = expected) ∧
    collectFileStep inst none save_path expected f =
      expected ++ [canonPath (osJoin save_path f.name)] := by
  constructor
  · intro hout
    simp [collectFileStep, hfail, hout]
  · simp [collectFileStep, hfail]

theorem expected_path_fallback_witness :
    collectFileStep ⟨1, "i", some "/remote", some "/local", []⟩
      (some (canonPath "/g")) "/other" [] ⟨"f"⟩ = [] ∧
    collectFileStep ⟨1, "i", some "/remote", some "/local", []⟩
      none "/other" [] ⟨"f"⟩ = [] ++ [canonPath (osJoin "/other" "f")] :=
  ⟨(expected_path_fallback ⟨1, "i", some "/remote", some "/local", []⟩
      "/g" "/other" [] ⟨"f"⟩ (by decide)).1 (by decide),
   (expected_path_fallback ⟨1, "i", some "/remote", some "/local", []⟩
      "/g" "/other" [] ⟨"f"⟩ (by decide)).2⟩

/-- Claim C5 fails as stated: with no fallback root supplied, a file whose
translation fails still contributes an entry — its canonical remote path is
added directly (scheduler.py:336-340). -/
theorem expected_path_no_fallback_counterexample :
    mapQbtPathToLocal ⟨1, "i", some "/remote", some "/local", []⟩
      (osJoin "/other" "f") = none ∧
    collectExpectedLocalPaths ⟨1, "i", some "/remote", some "/local", []⟩
      [⟨"h1", "t1", "", "", [], "/other", some [⟨"f"⟩], 0, 0, 0, 0, 0⟩] none =
      [["other", "f"]] := by
  decide

end QPanel
